import Mathlib

/-!
Shallow embedding of `pkg/authconfigmap/authconfigmap.go` (eksctl's aws-auth
ConfigMap store).  The corpus holds two revisions of the package; where they
differ the embeddings are suffixed `Old` (the `MapIdentity`-based revision,
lines 1-361 of the file) and `New` (the `iam.Identity`-based revision,
lines 362-671).

Modelling conventions:
* The ConfigMap `Data` field maps the keys `mapRoles`, `mapUsers` and
  `mapAccounts` to YAML text.  YAML (un)marshalling of these shapes is a
  bijection between the stored text and the decoded value, so the embedding
  stores the decoded values directly; the decode/encode failure paths of
  `yaml.Unmarshal` / `yaml.Marshal` (malformed stored YAML) are outside the
  model.  A missing key decodes to an empty sequence, matching the Go
  behaviour of unmarshalling the empty string into a nil slice.
* Go `nil` (for the `Data` map of a ConfigMap handed to `New`) is modelled
  with `Option`.
* Errors the Go code returns are modelled with `Except String`.
* `strings.Split(s, ":")` — a single-character separator — is embedded as a
  structurally recursive split over the character list of `s`
  (`stringsSplitColon`), so that all definitions evaluate by kernel
  reduction.
-/

deriving instance DecidableEq for Except

namespace Authconfigmap

/-- Byte/code-point lexicographic comparison of character lists; UTF-8 byte
order (Go's `sort.Strings`) coincides with code-point order. -/
def charListLt : List Char → List Char → Bool
  | [], [] => false
  | [], _ :: _ => true
  | _ :: _, [] => false
  | a :: as, b :: bs =>
    if a < b then true
    else if b < a then false
    else charListLt as bs

/-- Lexicographic strict order on strings, as used by `sort.Strings`. -/
def strLt (s t : String) : Bool :=
  charListLt s.toList t.toList

/-- `strings.Split` with the single-character separator `sep`: cut the
character stream at every occurrence of `sep`, keeping empty segments
(`acc` is the reversed current segment). -/
def splitCharsAux (sep : Char) : List Char → List Char → List String
  | [], acc => [String.mk acc.reverse]
  | c :: cs, acc =>
    if c = sep then String.mk acc.reverse :: splitCharsAux sep cs []
    else splitCharsAux sep cs (c :: acc)

/-- `strings.Split(s, ":")`. -/
def stringsSplitColon (s : String) : List String :=
  splitCharsAux ':' s.toList []

/-- `MapIdentity` (old revision): an IAM identity together with its ARN.
The new revision's `iam.Identity` carries the same three observable fields
(ARN string, username, groups), so one record type serves both embeddings. -/
structure MapIdentity where
  ARN : String
  Username : String
  Groups : List String
  deriving DecidableEq, Repr

/-- `MapIdentity.resource`: the resource portion (index-5 `:`-segment) of the
ARN; the empty string for a malformed ARN with fewer than six segments. -/
def MapIdentity.resource (m : MapIdentity) : String :=
  let portions := stringsSplitColon m.ARN
  if portions.length < 6 then "" else portions.getD 5 ""

/-- `MapIdentity.Role`. -/
def MapIdentity.Role (m : MapIdentity) : Bool :=
  m.resource == "role"

/-- `MapIdentity.User`. -/
def MapIdentity.User (m : MapIdentity) : Bool :=
  m.resource == "user"

/-- The decoded `Data` of the aws-auth ConfigMap: the three keys
`mapRoles`, `mapUsers`, `mapAccounts`. -/
structure ConfigMapData where
  mapRoles : List MapIdentity
  mapUsers : List MapIdentity
  mapAccounts : List String
  deriving DecidableEq, Repr

/-- `Identities()` (identical in both revisions): the decoded roles followed
by the decoded users. -/
def ConfigMapData.Identities (d : ConfigMapData) : List MapIdentity :=
  d.mapRoles ++ d.mapUsers

/-- The fields of `metav1.ObjectMeta` the package reads or writes. -/
structure ObjectMeta where
  name : String
  ns : String
  uid : String
  deriving DecidableEq, Repr

/-- The `ObjectMeta()` constructor function: name and namespace only, so the
UID (creation marker) is empty. -/
def defaultObjectMeta : ObjectMeta :=
  { name := "aws-auth", ns := "kube-system", uid := "" }

/-- `corev1.ConfigMap` as used here: metadata plus the (possibly nil) `Data`
map. -/
structure ConfigMap where
  meta : ObjectMeta
  data : Option ConfigMapData
  deriving DecidableEq, Repr

/-- The fresh empty `Data` map (all three keys decode to empty sequences). -/
def emptyConfigMapData : ConfigMapData :=
  { mapRoles := [], mapUsers := [], mapAccounts := [] }

/-- `New(client, cm)`: if `cm` is nil a fresh ConfigMap is created; if
`cm.Data` is nil the ObjectMeta is replaced by `ObjectMeta()` and the data
map is replaced by an empty one.  The Kubernetes client is threaded through
unchanged by the source, so it is dropped here. -/
def New : Option ConfigMap → ConfigMap
  | none => { meta := defaultObjectMeta, data := some emptyConfigMapData }
  | some cm =>
    match cm.data with
    | none => { meta := defaultObjectMeta, data := some emptyConfigMapData }
    | some _ => cm

/-- Which remote operation `Save` performed. -/
inductive SaveOp
  | create
  | update
  deriving DecidableEq, Repr

/-- The remote ConfigMap API (`v1.ConfigMapInterface`): `Create` and `Update`
each return the object as stored by the remote system.  Transport failures
are outside the model, so the calls are total functions. -/
structure Client where
  create : ConfigMap → ConfigMap
  update : ConfigMap → ConfigMap

/-- `Save` (identical in both revisions): create when the held ConfigMap's
UID is empty, update otherwise; in either case the object returned by the
remote call becomes the newly held ConfigMap. -/
def Save (client : Client) (cm : ConfigMap) : SaveOp × ConfigMap :=
  if cm.meta.uid = "" then (SaveOp.create, client.create cm)
  else (SaveOp.update, client.update cm)

/-- Ordered insertion of a string into a strictly sorted list, dropping the
element when already present. -/
def insertSortedString (s : String) : List String → List String
  | [] => [s]
  | x :: xs =>
    if strLt s x then s :: x :: xs
    else if s = x then x :: xs
    else x :: insertSortedString s xs

/-- `sets.NewString(accounts...).List()`: the lexically sorted list of the
distinct elements. -/
def sortedDedup (l : List String) : List String :=
  l.foldr insertSortedString []

/-- `AddAccount` (identical in both revisions): append the account, then
deduplicate and sort the whole list. -/
def AddAccount (d : ConfigMapData) (account : String) : ConfigMapData :=
  { d with mapAccounts := sortedDedup (d.mapAccounts ++ [account]) }

/-- `RemoveAccount` (identical in both revisions): the loop keeps every entry
other than `account` (`newaccounts`) and records whether any entry matched
(`found`); the kept entries are stored only when a match was found, else the
call errors. -/
def RemoveAccount (d : ConfigMapData) (account : String) : Except String ConfigMapData :=
  if d.mapAccounts.contains account then
    Except.ok { d with mapAccounts := d.mapAccounts.filter (fun acc => acc != account) }
  else
    Except.error ("account " ++ account ++ " not found in auth ConfigMap")

/-- Old `setIdentities`: re-classify every record and re-encode the two
keys.  A record classifying as neither role nor user is appended to neither
list — it is silently dropped, and no error is raised by this loop. -/
def setIdentitiesOld (d : ConfigMapData) (identities : List MapIdentity) : ConfigMapData :=
  { d with
    mapRoles := identities.filter (fun i => i.Role),
    mapUsers := identities.filter (fun i => i.User) }

/-- Old `AddIdentity(arn, username, groups)`: append the new record to the
logical identity list and re-encode. -/
def AddIdentityOld (d : ConfigMapData) (arn username : String) (groups : List String) : ConfigMapData :=
  setIdentitiesOld d (d.Identities ++ [⟨arn, username, groups⟩])

/-- The `all = false` loop of `RemoveIdentity`: drop the first record whose
ARN equals `arn`, or report that none matched. -/
def removeFirstIdentity (arn : String) : List MapIdentity → Option (List MapIdentity)
  | [] => none
  | x :: xs =>
    if x.ARN == arn then some xs
    else (removeFirstIdentity arn xs).map (fun l => x :: l)

/-- Old `RemoveIdentity(arn, all)`: with `all` every matching record is
dropped (no error on zero matches); otherwise the first matching record is
dropped and a missing match is an error. -/
def RemoveIdentityOld (d : ConfigMapData) (arn : String) (all : Bool) : Except String ConfigMapData :=
  if all then
    Except.ok (setIdentitiesOld d (d.Identities.filter (fun i => i.ARN != arn)))
  else
    match removeFirstIdentity arn d.Identities with
    | some identities => Except.ok (setIdentitiesOld d identities)
    | none => Except.error ("instance identity ARN " ++ arn ++ " not found in auth ConfigMap")

/-- Modelled from the spec: the `iam` package (`iam.ARN`, `iam.Parse`, the
canonical `String()` form and role/user classification) is not under `src/`.
Per the spec, an identifier wraps the raw colon-delimited string; `Parse`
splits on `:` and fails when fewer than six segments result; the canonical
form is byte-identical to the parsed input; classification compares the
resource-type segment with `"role"` / `"user"` exactly. -/
structure ARN where
  raw : String
  deriving DecidableEq, Repr

/-- Modelled from the spec: `iam.Parse` — reject identifiers with fewer than
six `:`-segments, otherwise wrap the raw string. -/
def iamParse (raw : String) : Except String ARN :=
  if (stringsSplitColon raw).length < 6 then
    Except.error ("invalid ARN " ++ raw)
  else
    Except.ok ⟨raw⟩

/-- Modelled from the spec: canonical string form (`String()`), byte-identical
to the parsed input. -/
def ARN.canonical (a : ARN) : String := a.raw

/-- Modelled from the spec: the resource-type segment inspected by
classification. -/
def ARN.resourceType (a : ARN) : String :=
  (stringsSplitColon a.raw).getD 5 ""

/-- Modelled from the spec: `iam.ARN.Role()`. -/
def ARN.Role (a : ARN) : Bool := a.resourceType == "role"

/-- Modelled from the spec: `iam.ARN.User()`. -/
def ARN.User (a : ARN) : Bool := a.resourceType == "user"

/-- The classification loop of the new `setIdentities`: parse each record's
ARN, bucket it as a role or a user, and fail on a record that classifies as
neither. -/
def splitIdentitiesNew : List MapIdentity → Except String (List MapIdentity × List MapIdentity)
  | [] => Except.ok ([], [])
  | i :: rest =>
    match iamParse i.ARN with
    | Except.error e => Except.error e
    | Except.ok a =>
      if a.Role then
        match splitIdentitiesNew rest with
        | Except.error e => Except.error e
        | Except.ok (roles, users) => Except.ok (i :: roles, users)
      else if a.User then
        match splitIdentitiesNew rest with
        | Except.error e => Except.error e
        | Except.ok (roles, users) => Except.ok (roles, i :: users)
      else
        Except.error ("cannot determine if " ++ a.resourceType ++
          " refers to a user or role during setIdentities preprocessing")

/-- New `setIdentities`: classify-split the list and re-encode both keys;
propagates the classification error. -/
def setIdentitiesNew (d : ConfigMapData) (identities : List MapIdentity) : Except String ConfigMapData :=
  match splitIdentitiesNew identities with
  | Except.error e => Except.error e
  | Except.ok (roles, users) =>
    Except.ok { d with mapRoles := roles, mapUsers := users }

/-- Modelled from the spec: `iam.Identity.Valid` (not under `src/`) — the
principal must parse and classify as role or user. -/
def identityValid (i : MapIdentity) : Except String Unit :=
  match iamParse i.ARN with
  | Except.error e => Except.error e
  | Except.ok a =>
    if a.Role || a.User then Except.ok ()
    else Except.error ("invalid identity " ++ i.ARN)

/-- New `AddIdentity(identity)`: validate the record, append it to the
logical identity list and re-encode. -/
def AddIdentityNew (d : ConfigMapData) (identity : MapIdentity) : Except String ConfigMapData :=
  match identityValid identity with
  | Except.error e => Except.error e
  | Except.ok _ => setIdentitiesNew d (d.Identities ++ [identity])

/-- The `all = false` loop of the new `RemoveIdentity`: parse each record's
ARN in turn and drop the first record whose canonical form equals `arnC`;
a record that fails to parse before a match is found aborts the loop. -/
def removeFirstNew (arnC : String) : List MapIdentity → Except String (Option (List MapIdentity))
  | [] => Except.ok none
  | x :: xs =>
    match iamParse x.ARN with
    | Except.error e => Except.error e
    | Except.ok a =>
      if a.canonical == arnC then Except.ok (some xs)
      else
        match removeFirstNew arnC xs with
        | Except.error e => Except.error e
        | Except.ok r => Except.ok (r.map (fun l => x :: l))

/-- The `all = true` loop of the new `RemoveIdentity`: parse each record's
ARN and keep the records whose canonical form differs from `arnC`. -/
def filterOutNew (arnC : String) : List MapIdentity → Except String (List MapIdentity)
  | [] => Except.ok []
  | x :: xs =>
    match iamParse x.ARN with
    | Except.error e => Except.error e
    | Except.ok a =>
      match filterOutNew arnC xs with
      | Except.error e => Except.error e
      | Except.ok rest =>
        if a.canonical == arnC then Except.ok rest else Except.ok (x :: rest)

/-- New `RemoveIdentity(arn, all)`: as in the old revision, but ARNs are
compared through their parsed canonical form and the re-encode can fail. -/
def RemoveIdentityNew (d : ConfigMapData) (arn : ARN) (all : Bool) : Except String ConfigMapData :=
  if all then
    match filterOutNew arn.canonical d.Identities with
    | Except.error e => Except.error e
    | Except.ok newidentities => setIdentitiesNew d newidentities
  else
    match removeFirstNew arn.canonical d.Identities with
    | Except.error e => Except.error e
    | Except.ok (some identities) => setIdentitiesNew d identities
    | Except.ok none =>
      Except.error ("instance identity ARN " ++ arn.canonical ++ " not found in auth ConfigMap")

/-- The §3 MappingSnapshot invariant: every record stored under `mapRoles`
classifies as a role and every record under `mapUsers` classifies as a
user. -/
def Classified (d : ConfigMapData) : Prop :=
  (∀ r ∈ d.mapRoles, r.Role = true) ∧ (∀ u ∈ d.mapUsers, u.User = true)

instance (d : ConfigMapData) : Decidable (Classified d) :=
  inferInstanceAs (Decidable (_ ∧ _))

/-- Example role record (colon-form ARN, resource-type segment `role`). -/
def roleRecA : MapIdentity := ⟨"arn:aws:iam::1:role:a", "ua", ["g1"]⟩

/-- Example role record. -/
def roleRecB : MapIdentity := ⟨"arn:aws:iam::1:role:b", "ub", []⟩

/-- Example user record. -/
def userRecC : MapIdentity := ⟨"arn:aws:iam::1:user:c", "uc", []⟩

/-- Example snapshot satisfying the §3 classification invariant. -/
def dEx : ConfigMapData := ⟨[roleRecA, roleRecB], [userRecC], ["100"]⟩

/-- Example snapshot violating the §3 invariant (records filed under the
wrong keys), used to observe write-time re-classification. -/
def dMix : ConfigMapData := ⟨[userRecC], [roleRecA], []⟩

/-- Example remote client: `Create` stamps a fresh UID, `Update` returns the
object unchanged. -/
def clientEx : Client :=
  { create := fun c => { c with meta := { c.meta with uid := "u1" } },
    update := fun c => c }

/-- Example ConfigMap that already exists remotely (non-empty UID). -/
def cmWithUid : ConfigMap :=
  { meta := { name := "aws-auth", ns := "kube-system", uid := "u9" },
    data := some emptyConfigMapData }

section OrderLemmas

theorem charListLt_irrefl : ∀ l : List Char, charListLt l l = false := by
  intro l
  induction l with
  | nil => rfl
  | cons a as ih => simp [charListLt, lt_irrefl, ih]

theorem charListLt_trans (l₁ : List Char) : ∀ l₂ l₃ : List Char,
    charListLt l₁ l₂ = true → charListLt l₂ l₃ = true → charListLt l₁ l₃ = true := by
  induction l₁ with
  | nil =>
    intro l₂ l₃ h₁ h₂
    cases l₂ with
    | nil => simp [charListLt] at h₁
    | cons b bs =>
      cases l₃ with
      | nil => simp [charListLt] at h₂
      | cons c cs => simp [charListLt]
  | cons a as ih =>
    intro l₂ l₃ h₁ h₂
    cases l₂ with
    | nil => simp [charListLt] at h₁
    | cons b bs =>
      cases l₃ with
      | nil => simp [charListLt] at h₂
      | cons c cs =>
        simp only [charListLt] at h₁ h₂ ⊢
        by_cases hab : a < b
        · by_cases hbc : b < c
          · simp [lt_trans hab hbc]
          · by_cases hcb : c < b
            · simp [hbc, hcb] at h₂
            · have hbceq : b = c := le_antisymm (le_of_not_lt hcb) (le_of_not_lt hbc)
              subst hbceq
              simp [hab]
        · by_cases hba : b < a
          · simp [hab, hba] at h₁
          · have habeq : a = b := le_antisymm (le_of_not_lt hba) (le_of_not_lt hab)
            subst habeq
            simp only [lt_irrefl, if_false] at h₁
            by_cases hac : a < c
            · simp [hac]
            · by_cases hca : c < a
              · simp [hac, hca] at h₂
              · have haceq : a = c := le_antisymm (le_of_not_lt hca) (le_of_not_lt hac)
                subst haceq
                simp only [lt_irrefl, if_false] at h₂ ⊢
                exact ih bs cs h₁ h₂

theorem charListLt_total : ∀ l₁ l₂ : List Char,
    l₁ = l₂ ∨ charListLt l₁ l₂ = true ∨ charListLt l₂ l₁ = true := by
  intro l₁
  induction l₁ with
  | nil =>
    intro l₂
    cases l₂ with
    | nil => exact Or.inl rfl
    | cons b bs => exact Or.inr (Or.inl rfl)
  | cons a as ih =>
    intro l₂
    cases l₂ with
    | nil => exact Or.inr (Or.inr rfl)
    | cons b bs =>
      rcases lt_trichotomy a b with hab | hab | hab
      · exact Or.inr (Or.inl (by simp [charListLt, hab]))
      · subst hab
        rcases ih bs with h | h | h
        · exact Or.inl (by rw [h])
        · exact Or.inr (Or.inl (by simp [charListLt, lt_irrefl, h]))
        · exact Or.inr (Or.inr (by simp [charListLt, lt_irrefl, h]))
      · exact Or.inr (Or.inr (by simp [charListLt, hab]))

theorem strLt_irrefl (s : String) : strLt s s = false :=
  charListLt_irrefl _

theorem strLt_trans {s t u : String} (h₁ : strLt s t = true) (h₂ : strLt t u = true) :
    strLt s u = true :=
  charListLt_trans _ _ _ h₁ h₂

theorem strLt_asymm {s t : String} (h : strLt s t = true) : strLt t s = false := by
  cases hts : strLt t s with
  | false => rfl
  | true =>
    have := strLt_trans h hts
    rw [strLt_irrefl] at this
    exact absurd this (by simp)

theorem strLt_ne {s t : String} (h : strLt s t = true) : s ≠ t := by
  intro he
  subst he
  rw [strLt_irrefl] at h
  exact absurd h (by simp)

theorem strLt_total {s t : String} (h : s ≠ t) : strLt s t = true ∨ strLt t s = true := by
  rcases charListLt_total s.toList t.toList with he | hlt | hlt
  · refine absurd ?_ h
    cases s
    cases t
    simp only [String.toList] at he
    exact congrArg String.mk he
  · exact Or.inl hlt
  · exact Or.inr hlt

end OrderLemmas

section AccountLemmas

theorem mem_insertSortedString (s y : String) : ∀ l : List String,
    y ∈ insertSortedString s l ↔ y = s ∨ y ∈ l := by
  intro l
  induction l with
  | nil => simp [insertSortedString]
  | cons x xs ih =>
    simp only [insertSortedString]
    by_cases h1 : strLt s x = true
    · simp [h1, List.mem_cons]
    · rw [if_neg (by simpa using h1)]
      by_cases h2 : s = x
      · subst h2
        rw [if_pos rfl]
        simp only [List.mem_cons]
        tauto
      · rw [if_neg h2]
        simp only [List.mem_cons, ih]
        tauto

theorem sorted_insertSortedString (s : String) : ∀ l : List String,
    l.Pairwise (fun a b => strLt a b = true) →
    (insertSortedString s l).Pairwise (fun a b => strLt a b = true) := by
  intro l
  induction l with
  | nil => intro _; simp [insertSortedString]
  | cons x xs ih =>
    intro h
    rw [List.pairwise_cons] at h
    obtain ⟨hx, hxs⟩ := h
    simp only [insertSortedString]
    by_cases h1 : strLt s x = true
    · rw [if_pos h1, List.pairwise_cons]
      refine ⟨?_, List.pairwise_cons.mpr ⟨hx, hxs⟩⟩
      intro b hb
      rcases List.mem_cons.mp hb with rfl | hb'
      · exact h1
      · exact strLt_trans h1 (hx b hb')
    · rw [if_neg (by simpa using h1)]
      by_cases h2 : s = x
      · rw [if_pos h2]
        exact List.pairwise_cons.mpr ⟨hx, hxs⟩
      · rw [if_neg h2, List.pairwise_cons]
        refine ⟨?_, ih hxs⟩
        intro b hb
        rcases (mem_insertSortedString s b xs).mp hb with rfl | hb'
        · rcases strLt_total h2 with hlt | hlt
          · exact absurd hlt h1
          · exact hlt
        · exact hx b hb'

theorem sortedDedup_sorted : ∀ l : List String,
    (sortedDedup l).Pairwise (fun a b => strLt a b = true) := by
  intro l
  induction l with
  | nil => simp [sortedDedup]
  | cons x xs ih => exact sorted_insertSortedString x (sortedDedup xs) ih

theorem mem_sortedDedup (y : String) : ∀ l : List String,
    y ∈ sortedDedup l ↔ y ∈ l := by
  intro l
  induction l with
  | nil => simp [sortedDedup]
  | cons x xs ih =>
    show y ∈ insertSortedString x (sortedDedup xs) ↔ _
    rw [mem_insertSortedString, ih]
    simp [List.mem_cons]

theorem sorted_nodup {l : List String}
    (h : l.Pairwise (fun a b => strLt a b = true)) : l.Nodup :=
  h.imp (fun hab => strLt_ne hab)

theorem sorted_mem_ext : ∀ l₁ l₂ : List String,
    l₁.Pairwise (fun a b => strLt a b = true) →
    l₂.Pairwise (fun a b => strLt a b = true) →
    (∀ y, y ∈ l₁ ↔ y ∈ l₂) → l₁ = l₂ := by
  intro l₁
  induction l₁ with
  | nil =>
    intro l₂ _ _ hmem
    cases l₂ with
    | nil => rfl
    | cons b bs => exact absurd ((hmem b).mpr (List.mem_cons_self b bs)) (by simp)
  | cons x xs ih =>
    intro l₂ h₁ h₂ hmem
    cases l₂ with
    | nil => exact absurd ((hmem x).mp (List.mem_cons_self x xs)) (by simp)
    | cons b bs =>
      rw [List.pairwise_cons] at h₁ h₂
      obtain ⟨hx, hxs⟩ := h₁
      obtain ⟨hb, hbs⟩ := h₂
      have hxb : x = b := by
        by_contra hne
        have hx2 : x ∈ b :: bs := (hmem x).mp (List.mem_cons_self x xs)
        have hb2 : b ∈ x :: xs := (hmem b).mpr (List.mem_cons_self b bs)
        rcases List.mem_cons.mp hx2 with h | h
        · exact hne h
        · have hbx : strLt b x = true := hb x h
          rcases List.mem_cons.mp hb2 with h' | h'
          · exact hne h'.symm
          · have hxb' : strLt x b = true := hx b h'
            have := strLt_trans hxb' hbx
            rw [strLt_irrefl] at this
            exact absurd this (by simp)
      subst hxb
      have htl : ∀ y, y ∈ xs ↔ y ∈ bs := by
        intro y
        constructor
        · intro hy
          have hlt := hx y hy
          have : y ∈ x :: bs := (hmem y).mp (List.mem_cons_of_mem x hy)
          rcases List.mem_cons.mp this with rfl | h
          · rw [strLt_irrefl] at hlt
            exact absurd hlt (by simp)
          · exact h
        · intro hy
          have hlt := hb y hy
          have : y ∈ x :: xs := (hmem y).mpr (List.mem_cons_of_mem x hy)
          rcases List.mem_cons.mp this with rfl | h
          · rw [strLt_irrefl] at hlt
            exact absurd hlt (by simp)
          · exact h
      rw [ih bs hxs hbs htl]

theorem sortedDedup_congr {l₁ l₂ : List String}
    (h : ∀ y, y ∈ l₁ ↔ y ∈ l₂) : sortedDedup l₁ = sortedDedup l₂ :=
  sorted_mem_ext _ _ (sortedDedup_sorted l₁) (sortedDedup_sorted l₂)
    (fun y => by rw [mem_sortedDedup, mem_sortedDedup]; exact h y)

end AccountLemmas

section IdentityLemmas

theorem role_user_exclusive {m : MapIdentity} (h : m.Role = true) : m.User = false := by
  unfold MapIdentity.Role at h
  unfold MapIdentity.User
  rw [beq_iff_eq] at h
  rw [h]
  rfl

theorem user_role_exclusive {m : MapIdentity} (h : m.User = true) : m.Role = false := by
  unfold MapIdentity.User at h
  unfold MapIdentity.Role
  rw [beq_iff_eq] at h
  rw [h]
  rfl

theorem filter_parts {R U : List MapIdentity}
    (hR : ∀ r ∈ R, r.Role = true) (hU : ∀ u ∈ U, u.User = true) :
    (R ++ U).filter (fun i => i.Role) = R ∧ (R ++ U).filter (fun i => i.User) = U := by
  constructor
  · rw [List.filter_append, List.filter_eq_self.mpr hR,
      List.filter_eq_nil_iff.mpr (fun u hu => by simp [user_role_exclusive (hU u hu)]),
      List.append_nil]
  · rw [List.filter_append, List.filter_eq_self.mpr hU,
      List.filter_eq_nil_iff.mpr (fun r hr => by simp [role_user_exclusive (hR r hr)]),
      List.nil_append]

theorem setIdentitiesOld_identities (d : ConfigMapData) (l : List MapIdentity) :
    (setIdentitiesOld d l).Identities
      = l.filter (fun i => i.Role) ++ l.filter (fun i => i.User) :=
  rfl

theorem setIdentitiesOld_classified (d : ConfigMapData) (l : List MapIdentity) :
    Classified (setIdentitiesOld d l) :=
  ⟨fun r hr => (List.mem_filter.mp hr).2, fun u hu => (List.mem_filter.mp hu).2⟩

theorem classified_split {d : ConfigMapData} (hC : Classified d) :
    d.Identities.filter (fun i => i.Role) = d.mapRoles
    ∧ d.Identities.filter (fun i => i.User) = d.mapUsers :=
  filter_parts hC.1 hC.2

theorem decomp_split {R U pre post : List MapIdentity} {m : MapIdentity}
    (hR : ∀ r ∈ R, r.Role = true) (hU : ∀ u ∈ U, u.User = true)
    (h : pre ++ m :: post = R ++ U) :
    ∃ X Y, pre ++ post = X ++ Y
      ∧ (∀ r ∈ X, r.Role = true) ∧ (∀ u ∈ Y, u.User = true) := by
  rcases List.append_eq_append_iff.mp h with ⟨a, ha1, ha2⟩ | ⟨c, hc1, hc2⟩
  · cases a with
    | nil =>
      refine ⟨pre, post, rfl, ?_, ?_⟩
      · intro r hr
        apply hR
        rw [ha1]
        simpa using hr
      · intro u hu
        apply hU
        rw [List.nil_append] at ha2
        rw [← ha2]
        exact List.mem_cons_of_mem m hu
    | cons a₀ a₂ =>
      rw [List.cons_append] at ha2
      injection ha2 with hm hpost
      refine ⟨pre ++ a₂, U, ?_, ?_, hU⟩
      · rw [hpost, List.append_assoc]
      · intro r hr
        apply hR
        rw [ha1]
        rcases List.mem_append.mp hr with hr' | hr'
        · exact List.mem_append.mpr (Or.inl hr')
        · exact List.mem_append.mpr (Or.inr (List.mem_cons_of_mem a₀ hr'))
  · refine ⟨R, c ++ post, ?_, hR, ?_⟩
    · rw [hc1, List.append_assoc]
    · intro u hu
      apply hU
      rw [hc2]
      rcases List.mem_append.mp hu with hu' | hu'
      · exact List.mem_append.mpr (Or.inl hu')
      · exact List.mem_append.mpr (Or.inr (List.mem_cons_of_mem m hu'))

theorem removeFirstIdentity_decomp (arn : String) : ∀ (pre : List MapIdentity)
    (m : MapIdentity) (post : List MapIdentity),
    (∀ x ∈ pre, x.ARN ≠ arn) → m.ARN = arn →
    removeFirstIdentity arn (pre ++ m :: post) = some (pre ++ post) := by
  intro pre
  induction pre with
  | nil =>
    intro m post _ hm
    simp [removeFirstIdentity, hm]
  | cons x xs ih =>
    intro m post hpre hm
    have hx : x.ARN ≠ arn := hpre x (List.mem_cons_self x xs)
    rw [List.cons_append]
    show (if x.ARN == arn then some (xs ++ m :: post)
      else (removeFirstIdentity arn (xs ++ m :: post)).map (fun l => x :: l)) = _
    rw [if_neg (by simpa using hx)]
    rw [ih m post (fun y hy => hpre y (List.mem_cons_of_mem x hy)) hm]
    rfl

theorem removeFirstIdentity_none (arn : String) : ∀ l : List MapIdentity,
    (∀ x ∈ l, x.ARN ≠ arn) → removeFirstIdentity arn l = none := by
  intro l
  induction l with
  | nil => intro _; rfl
  | cons x xs ih =>
    intro h
    show (if x.ARN == arn then some xs
      else (removeFirstIdentity arn xs).map (fun l => x :: l)) = none
    rw [if_neg (by simpa using h x (List.mem_cons_self x xs))]
    rw [ih (fun y hy => h y (List.mem_cons_of_mem x hy))]
    rfl

theorem parse_ok_of_classify {m : MapIdentity} (h : m.Role = true ∨ m.User = true) :
    iamParse m.ARN = Except.ok ⟨m.ARN⟩ := by
  unfold iamParse
  rw [if_neg ?hn]
  case hn =>
    intro hlt
    have hres : m.resource = "" := by
      unfold MapIdentity.resource
      rw [if_pos hlt]
    rcases h with h | h
    · unfold MapIdentity.Role at h
      rw [hres] at h
      exact absurd h (by decide)
    · unfold MapIdentity.User at h
      rw [hres] at h
      exact absurd h (by decide)

theorem arn_role_eq (m : MapIdentity) : (ARN.mk m.ARN).Role = m.Role := by
  show ((stringsSplitColon m.ARN).getD 5 "" == "role") = m.Role
  unfold MapIdentity.Role MapIdentity.resource
  by_cases hlt : (stringsSplitColon m.ARN).length < 6
  · rw [if_pos hlt, List.getD_eq_default _ _ (by omega)]
  · rw [if_neg hlt]

theorem arn_user_eq (m : MapIdentity) : (ARN.mk m.ARN).User = m.User := by
  show ((stringsSplitColon m.ARN).getD 5 "" == "user") = m.User
  unfold MapIdentity.User MapIdentity.resource
  by_cases hlt : (stringsSplitColon m.ARN).length < 6
  · rw [if_pos hlt, List.getD_eq_default _ _ (by omega)]
  · rw [if_neg hlt]

end IdentityLemmas

section NewRevisionLemmas

theorem iamParse_ok_inv {raw : String} {a : ARN} (h : iamParse raw = Except.ok a) :
    a = ⟨raw⟩ := by
  unfold iamParse at h
  split at h
  · cases h
  · cases h
    rfl

theorem splitIdentitiesNew_ok : ∀ l : List MapIdentity,
    (∀ i ∈ l, i.Role = true ∨ i.User = true) →
    splitIdentitiesNew l
      = Except.ok (l.filter (fun i => i.Role), l.filter (fun i => i.User)) := by
  intro l
  induction l with
  | nil => intro _; rfl
  | cons i rest ih =>
    intro h
    have hi := h i (List.mem_cons_self i rest)
    have hrest := fun x hx => h x (List.mem_cons_of_mem i hx)
    unfold splitIdentitiesNew
    rw [parse_ok_of_classify hi, ih hrest]
    rcases hi with hiR | hiU
    · simp only [arn_role_eq, arn_user_eq, hiR, if_true, List.filter_cons,
        role_user_exclusive hiR]
      simp
    · have hiRf : i.Role = false := user_role_exclusive hiU
      simp only [arn_role_eq, arn_user_eq, hiRf, hiU, List.filter_cons]
      simp

theorem setIdentitiesNew_ok (d : ConfigMapData) (l : List MapIdentity)
    (h : ∀ i ∈ l, i.Role = true ∨ i.User = true) :
    setIdentitiesNew d l = Except.ok (setIdentitiesOld d l) := by
  unfold setIdentitiesNew setIdentitiesOld
  rw [splitIdentitiesNew_ok l h]

theorem splitIdentitiesNew_classified : ∀ (l rs us : List MapIdentity),
    splitIdentitiesNew l = Except.ok (rs, us) →
    (∀ r ∈ rs, r.Role = true) ∧ (∀ u ∈ us, u.User = true) := by
  intro l
  induction l with
  | nil =>
    intro rs us h
    unfold splitIdentitiesNew at h
    cases h
    exact ⟨fun r hr => absurd hr (by simp), fun u hu => absurd hu (by simp)⟩
  | cons i rest ih =>
    intro rs us h
    unfold splitIdentitiesNew at h
    cases hp : iamParse i.ARN with
    | error e =>
      rw [hp] at h
      cases h
    | ok a =>
      rw [hp] at h
      have ha := iamParse_ok_inv hp
      subst ha
      dsimp only at h
      by_cases hr : (ARN.mk i.ARN).Role = true
      · rw [if_pos hr] at h
        cases hsplit : splitIdentitiesNew rest with
        | error e =>
          rw [hsplit] at h
          cases h
        | ok p =>
          obtain ⟨roles, users⟩ := p
          rw [hsplit] at h
          dsimp only at h
          rw [Except.ok.injEq, Prod.mk.injEq] at h
          obtain ⟨hrs, hus⟩ := h
          subst hrs
          subst hus
          obtain ⟨ihR, ihU⟩ := ih roles users hsplit
          refine ⟨?_, ihU⟩
          intro r hrm
          rcases List.mem_cons.mp hrm with rfl | hrm'
          · rw [← arn_role_eq r]
            exact hr
          · exact ihR r hrm'
      · rw [if_neg hr] at h
        by_cases hu : (ARN.mk i.ARN).User = true
        · rw [if_pos hu] at h
          cases hsplit : splitIdentitiesNew rest with
          | error e =>
            rw [hsplit] at h
            cases h
          | ok p =>
            obtain ⟨roles, users⟩ := p
            rw [hsplit] at h
            dsimp only at h
            rw [Except.ok.injEq, Prod.mk.injEq] at h
            obtain ⟨hrs, hus⟩ := h
            subst hrs
            subst hus
            obtain ⟨ihR, ihU⟩ := ih roles users hsplit
            refine ⟨ihR, ?_⟩
            intro u hum
            rcases List.mem_cons.mp hum with rfl | hum'
            · rw [← arn_user_eq u]
              exact hu
            · exact ihU u hum'
        · rw [if_neg hu] at h
          cases h

theorem setIdentitiesNew_ok_classified {d : ConfigMapData} {l : List MapIdentity}
    {d' : ConfigMapData} (h : setIdentitiesNew d l = Except.ok d') : Classified d' := by
  unfold setIdentitiesNew at h
  cases hs : splitIdentitiesNew l with
  | error e =>
    rw [hs] at h
    cases h
  | ok p =>
    obtain ⟨rs, us⟩ := p
    rw [hs] at h
    cases h
    exact splitIdentitiesNew_classified l rs us hs

theorem splitIdentitiesNew_error_of_bad : ∀ l : List MapIdentity,
    (∃ i ∈ l, i.Role = false ∧ i.User = false) →
    ∃ e, splitIdentitiesNew l = Except.error e := by
  intro l
  induction l with
  | nil =>
    rintro ⟨i, hi, _⟩
    exact absurd hi (by simp)
  | cons j rest ih =>
    rintro ⟨i, hi, hbad⟩
    unfold splitIdentitiesNew
    rcases List.mem_cons.mp hi with rfl | hi'
    · cases hp : iamParse i.ARN with
      | error e => exact ⟨e, rfl⟩
      | ok a =>
        have ha := iamParse_ok_inv hp
        subst ha
        dsimp only
        rw [arn_role_eq i, arn_user_eq i, hbad.1, hbad.2]
        exact ⟨_, rfl⟩
    · cases hp : iamParse j.ARN with
      | error e => exact ⟨e, rfl⟩
      | ok a =>
        obtain ⟨e, he⟩ := ih ⟨i, hi', hbad⟩
        dsimp only
        rw [he]
        by_cases hr : a.Role = true
        · rw [if_pos hr]
          exact ⟨e, rfl⟩
        · rw [if_neg hr]
          by_cases hu : a.User = true
          · rw [if_pos hu]
            exact ⟨e, rfl⟩
          · rw [if_neg hu]
            exact ⟨_, rfl⟩

theorem removeFirstNew_eq (arnC : String) : ∀ l : List MapIdentity,
    (∀ x ∈ l, iamParse x.ARN = Except.ok ⟨x.ARN⟩) →
    removeFirstNew arnC l = Except.ok (removeFirstIdentity arnC l) := by
  intro l
  induction l with
  | nil => intro _; rfl
  | cons x xs ih =>
    intro h
    unfold removeFirstNew
    rw [h x (List.mem_cons_self x xs)]
    show (if x.ARN == arnC then Except.ok (some xs)
      else match removeFirstNew arnC xs with
        | Except.error e => Except.error e
        | Except.ok r => Except.ok (r.map (fun l => x :: l))) = _
    by_cases hx : (x.ARN == arnC) = true
    · rw [if_pos hx]
      unfold removeFirstIdentity
      rw [if_pos hx]
    · rw [if_neg hx, ih (fun y hy => h y (List.mem_cons_of_mem x hy))]
      rw [show removeFirstIdentity arnC (x :: xs)
          = if x.ARN == arnC then some xs
            else (removeFirstIdentity arnC xs).map (fun l => x :: l) from rfl]
      rw [if_neg hx]

theorem filterOutNew_eq (arnC : String) : ∀ l : List MapIdentity,
    (∀ x ∈ l, iamParse x.ARN = Except.ok ⟨x.ARN⟩) →
    filterOutNew arnC l = Except.ok (l.filter (fun i => i.ARN != arnC)) := by
  intro l
  induction l with
  | nil => intro _; rfl
  | cons x xs ih =>
    intro h
    unfold filterOutNew
    rw [h x (List.mem_cons_self x xs), ih (fun y hy => h y (List.mem_cons_of_mem x hy))]
    show (if x.ARN == arnC then Except.ok (xs.filter (fun i => i.ARN != arnC))
      else Except.ok (x :: xs.filter (fun i => i.ARN != arnC))) = _
    by_cases hx : (x.ARN == arnC) = true
    · rw [if_pos hx, List.filter_cons]
      have : (x.ARN != arnC) = false := by
        simpa [bne] using hx
      rw [this]
      rfl
    · rw [if_neg hx, List.filter_cons]
      have : (x.ARN != arnC) = true := by
        simpa [bne] using hx
      rw [this]
      rfl

theorem classified_parses {d : ConfigMapData} (hC : Classified d) :
    ∀ x ∈ d.Identities, iamParse x.ARN = Except.ok ⟨x.ARN⟩ := by
  intro x hx
  rcases List.mem_append.mp hx with hx' | hx'
  · exact parse_ok_of_classify (Or.inl (hC.1 x hx'))
  · exact parse_ok_of_classify (Or.inr (hC.2 x hx'))

theorem addIdentityNew_ok_factor {d : ConfigMapData} {i : MapIdentity} {d' : ConfigMapData}
    (h : AddIdentityNew d i = Except.ok d') :
    setIdentitiesNew d (d.Identities ++ [i]) = Except.ok d' := by
  unfold AddIdentityNew at h
  cases hv : identityValid i with
  | error e =>
    rw [hv] at h
    cases h
  | ok u =>
    rw [hv] at h
    exact h

theorem removeIdentityNew_ok_factor {d : ConfigMapData} {a : ARN} {all : Bool}
    {d' : ConfigMapData} (h : RemoveIdentityNew d a all = Except.ok d') :
    ∃ l, setIdentitiesNew d l = Except.ok d' := by
  unfold RemoveIdentityNew at h
  cases all with
  | true =>
    rw [if_pos rfl] at h
    cases hf : filterOutNew a.canonical d.Identities with
    | error e =>
      rw [hf] at h
      cases h
    | ok newidentities =>
      rw [hf] at h
      exact ⟨newidentities, h⟩
  | false =>
    rw [if_neg (by simp)] at h
    cases hf : removeFirstNew a.canonical d.Identities with
    | error e =>
      rw [hf] at h
      cases h
    | ok r =>
      rw [hf] at h
      cases r with
      | none => cases h
      | some identities => exact ⟨identities, h⟩

theorem removeIdentityOld_ok_factor {d : ConfigMapData} {arn : String} {all : Bool}
    {d' : ConfigMapData} (h : RemoveIdentityOld d arn all = Except.ok d') :
    ∃ l, d' = setIdentitiesOld d l := by
  unfold RemoveIdentityOld at h
  cases all with
  | true =>
    rw [if_pos rfl] at h
    cases h
    exact ⟨_, rfl⟩
  | false =>
    rw [if_neg (by simp)] at h
    cases hf : removeFirstIdentity arn d.Identities with
    | none =>
      rw [hf] at h
      cases h
    | some identities =>
      rw [hf] at h
      cases h
      exact ⟨identities, rfl⟩

end NewRevisionLemmas

/-- C5: for every snapshot and account string, the account list produced by
`AddAccount` is lexically sorted and free of duplicates regardless of the
prior ordering or duplication of the stored list, and applying `AddAccount`
twice with the same value yields the same state as applying it once. -/
theorem claim_C5_addAccount_normalized (d : ConfigMapData) (account : String) :
    (AddAccount d account).mapAccounts.Pairwise (fun a b => strLt a b = true)
    ∧ (AddAccount d account).mapAccounts.Nodup
    ∧ AddAccount (AddAccount d account) account = AddAccount d account := by
  refine ⟨sortedDedup_sorted _, sorted_nodup (sortedDedup_sorted _), ?_⟩
  simp only [AddAccount]
  congr 1
  apply sortedDedup_congr
  intro y
  simp only [List.mem_append, mem_sortedDedup, List.mem_singleton]
  tauto

/-- C6 counterexample: on a snapshot whose account set already contains
`"111"`, `AddAccount "111"` leaves the set unchanged and the subsequent
`RemoveAccount "111"` deletes it, so the round trip loses `"111"` instead of
restoring the original account set. -/
theorem claim_C6_cex :
    RemoveAccount (AddAccount ⟨[], [], ["111"]⟩ "111") "111" = Except.ok ⟨[], [], []⟩
    ∧ "111" ∈ (ConfigMapData.mk [] [] ["111"]).mapAccounts
    ∧ "111" ∉ (ConfigMapData.mk [] [] []).mapAccounts := by
  decide

/-- C6 amended: whenever `"111"` is not already in the account set,
`RemoveAccount(AddAccount(s, "111"), "111")` succeeds and restores the
original account set (and leaves the role/user keys untouched). -/
theorem claim_C6_roundtrip_amended (d : ConfigMapData) (h : "111" ∉ d.mapAccounts) :
    ∃ d', RemoveAccount (AddAccount d "111") "111" = Except.ok d'
      ∧ (∀ y, y ∈ d'.mapAccounts ↔ y ∈ d.mapAccounts)
      ∧ d'.mapRoles = d.mapRoles ∧ d'.mapUsers = d.mapUsers := by
  have hmem : "111" ∈ (AddAccount d "111").mapAccounts := by
    show "111" ∈ sortedDedup (d.mapAccounts ++ ["111"])
    rw [mem_sortedDedup]
    simp
  simp only [RemoveAccount]
  rw [if_pos (List.elem_iff.mpr hmem)]
  refine ⟨_, rfl, ?_, rfl, rfl⟩
  intro y
  show y ∈ (sortedDedup (d.mapAccounts ++ ["111"])).filter (fun acc => acc != "111") ↔ _
  simp only [List.mem_filter, mem_sortedDedup, List.mem_append, List.mem_singleton,
    bne_iff_ne, ne_eq]
  constructor
  · rintro ⟨hy | hy, hne⟩
    · exact hy
    · exact absurd hy hne
  · intro hy
    exact ⟨Or.inl hy, fun he => h (he ▸ hy)⟩

/-- C6 witness: the amended round trip at a concrete snapshot without
`"111"`. -/
theorem claim_C6_witness :
    ∃ d', RemoveAccount (AddAccount (ConfigMapData.mk [] [] ["200"]) "111") "111" = Except.ok d'
      ∧ (∀ y, y ∈ d'.mapAccounts ↔ y ∈ (ConfigMapData.mk [] [] ["200"]).mapAccounts)
      ∧ d'.mapRoles = (ConfigMapData.mk [] [] ["200"]).mapRoles
      ∧ d'.mapUsers = (ConfigMapData.mk [] [] ["200"]).mapUsers :=
  claim_C6_roundtrip_amended (ConfigMapData.mk [] [] ["200"]) (by decide)

/-- C7 counterexample: the identifier `"a:b:c"` splits into fewer than six
segments, yet the in-src parsing (`MapIdentity.resource`) does not fail: it
yields the empty resource string, the record classifies as neither role nor
user, and the old-revision encode accepts the list containing it without an
error — the malformed identifier is accepted with an empty field, not
rejected with a ParseError. -/
theorem claim_C7_cex :
    (stringsSplitColon "a:b:c").length < 6
    ∧ MapIdentity.resource ⟨"a:b:c", "u", []⟩ = ""
    ∧ MapIdentity.Role ⟨"a:b:c", "u", []⟩ = false
    ∧ MapIdentity.User ⟨"a:b:c", "u", []⟩ = false
    ∧ setIdentitiesOld ⟨[], [], []⟩ [⟨"a:b:c", "u", []⟩] = ⟨[], [], []⟩ := by
  decide

/-- C7 amended: for every identifier with fewer than six `:`-segments the
in-src resource extraction returns the empty string — so the record
classifies as neither role nor user rather than being rejected at parse
time; the spec's failing `Parse` corresponds to the out-of-src `iam.Parse`
(modelled from the spec), which does reject such identifiers. -/
theorem claim_C7_short_arn_amended (m : MapIdentity)
    (h : (stringsSplitColon m.ARN).length < 6) :
    m.resource = "" ∧ m.Role = false ∧ m.User = false
    ∧ iamParse m.ARN = Except.error ("invalid ARN " ++ m.ARN) := by
  have hres : m.resource = "" := by
    unfold MapIdentity.resource
    rw [if_pos h]
  refine ⟨hres, ?_, ?_, ?_⟩
  · unfold MapIdentity.Role
    rw [hres]
    rfl
  · unfold MapIdentity.User
    rw [hres]
    rfl
  · unfold iamParse
    rw [if_pos h]

/-- C7 witness: the amended statement at the concrete identifier `"a:b"`. -/
theorem claim_C7_witness :
    MapIdentity.resource ⟨"a:b", "u", []⟩ = ""
    ∧ MapIdentity.Role ⟨"a:b", "u", []⟩ = false
    ∧ MapIdentity.User ⟨"a:b", "u", []⟩ = false
    ∧ iamParse (MapIdentity.mk "a:b" "u" []).ARN
        = Except.error ("invalid ARN " ++ (MapIdentity.mk "a:b" "u" []).ARN) :=
  claim_C7_short_arn_amended ⟨"a:b", "u", []⟩ (by decide)

/-- C8: `Save` performs a create exactly when the held ConfigMap's UID (the
creation marker) is empty, and then the object returned by the remote create
— carrying the remote marker — becomes the held resource; otherwise it
performs an update passing the currently held object with its marker. -/
theorem claim_C8_save_create_or_update (client : Client) (cm : ConfigMap) :
    ((Save client cm).1 = SaveOp.create ↔ cm.meta.uid = "")
    ∧ (cm.meta.uid = "" → Save client cm = (SaveOp.create, client.create cm))
    ∧ (cm.meta.uid ≠ "" → Save client cm = (SaveOp.update, client.update cm)) := by
  unfold Save
  by_cases h : cm.meta.uid = ""
  · rw [if_pos h]
    simp [h]
  · rw [if_neg h]
    refine ⟨?_, fun hc => absurd hc h, fun _ => rfl⟩
    constructor
    · intro hc
      exact absurd hc (by simp)
    · intro hc
      exact absurd hc h

/-- C8 witness: a freshly built ConfigMap (empty UID) is created, a
ConfigMap with a UID is updated. -/
theorem claim_C8_witness :
    Save clientEx (New none) = (SaveOp.create, clientEx.create (New none))
    ∧ Save clientEx cmWithUid = (SaveOp.update, clientEx.update cmWithUid) :=
  ⟨(claim_C8_save_create_or_update clientEx (New none)).2.1 rfl,
   (claim_C8_save_create_or_update clientEx cmWithUid).2.2 (by decide)⟩

/-- C10: `New` on a non-nil ConfigMap whose Data map is nil replaces the
whole ObjectMeta with the fresh default metadata, so the UID (creation
marker) is erased and a subsequent `Save` performs a create even though the
incoming metadata carried a non-empty UID (i.e. the resource already existed
remotely). -/
theorem claim_C10_new_nil_data_erases_uid (meta : ObjectMeta) (client : Client)
    (h : meta.uid ≠ "") :
    New (some ⟨meta, none⟩) = ⟨defaultObjectMeta, some emptyConfigMapData⟩
    ∧ (New (some ⟨meta, none⟩)).meta.uid = ""
    ∧ (Save client (New (some ⟨meta, none⟩))).1 = SaveOp.create :=
  ⟨rfl, rfl, rfl⟩

/-- C10 witness: a concrete ConfigMap with UID `"u7"` and nil Data. -/
theorem claim_C10_witness :
    New (some ⟨⟨"aws-auth", "kube-system", "u7"⟩, none⟩)
      = ⟨defaultObjectMeta, some emptyConfigMapData⟩
    ∧ (New (some ⟨⟨"aws-auth", "kube-system", "u7"⟩, none⟩)).meta.uid = ""
    ∧ (Save clientEx (New (some ⟨⟨"aws-auth", "kube-system", "u7"⟩, none⟩))).1 = SaveOp.create :=
  claim_C10_new_nil_data_erases_uid ⟨"aws-auth", "kube-system", "u7"⟩ clientEx (by decide)

/-- C1: after every mutation of the identity list — old or new revision,
`AddIdentity` or `RemoveIdentity` — the re-encoded `mapRoles` key contains
only role-classified records and the re-encoded `mapUsers` key only
user-classified records; the input snapshot `d` is arbitrary (it may violate
the invariant), so classification is re-derived at write time rather than
trusted from prior storage state. -/
theorem claim_C1_mutations_reclassify
    (d : ConfigMapData) (arn username : String) (groups : List String)
    (identity : MapIdentity) (a : ARN) (all : Bool) (d₁ d₂ d₃ : ConfigMapData) :
    Classified (AddIdentityOld d arn username groups)
    ∧ (RemoveIdentityOld d arn all = Except.ok d₁ → Classified d₁)
    ∧ (AddIdentityNew d identity = Except.ok d₂ → Classified d₂)
    ∧ (RemoveIdentityNew d a all = Except.ok d₃ → Classified d₃) := by
  refine ⟨setIdentitiesOld_classified _ _, ?_, ?_, ?_⟩
  · intro h
    obtain ⟨l, hl⟩ := removeIdentityOld_ok_factor h
    rw [hl]
    exact setIdentitiesOld_classified _ _
  · intro h
    exact setIdentitiesNew_ok_classified (addIdentityNew_ok_factor h)
  · intro h
    obtain ⟨l, hl⟩ := removeIdentityNew_ok_factor h
    exact setIdentitiesNew_ok_classified hl

/-- C1 witness: concrete mutations applied to `dMix`, a snapshot whose keys
are misfiled, all yield classified outputs. -/
theorem claim_C1_witness :
    Classified (AddIdentityOld dMix "zz" "ub" [])
    ∧ Classified (ConfigMapData.mk [roleRecA] [userRecC] [])
    ∧ Classified (ConfigMapData.mk [roleRecA, roleRecB] [userRecC] [])
    ∧ Classified (ConfigMapData.mk [roleRecA] [userRecC] []) := by
  obtain ⟨h1, h2, h3, h4⟩ := claim_C1_mutations_reclassify dMix "zz" "ub" []
    roleRecB (ARN.mk "zz") true
    (ConfigMapData.mk [roleRecA] [userRecC] [])
    (ConfigMapData.mk [roleRecA, roleRecB] [userRecC] [])
    (ConfigMapData.mk [roleRecA] [userRecC] [])
  exact ⟨h1, h2 (by decide), h3 (by decide), h4 (by decide)⟩

/-- C2 counterexample: in the old-revision `setIdentities` a record whose
principal classifies as neither role nor user does not make the encode fail
— the encode succeeds and the record is silently dropped from both stored
keys, contradicting the claim for that revision. -/
theorem claim_C2_cex :
    MapIdentity.Role ⟨"zz", "u", []⟩ = false
    ∧ MapIdentity.User ⟨"zz", "u", []⟩ = false
    ∧ setIdentitiesOld ⟨[], [], []⟩ [⟨"zz", "u", []⟩] = ⟨[], [], []⟩ := by
  decide

/-- C2 amended: in the new-revision `setIdentities` a record that classifies
as neither role nor user makes the encode fail with a fatal error, as the
claim states; in the old-revision `setIdentities` the encode instead
succeeds and such a record is silently dropped (no record of the stored
output is unclassifiable). -/
theorem claim_C2_unclassifiable_amended (d : ConfigMapData) (l : List MapIdentity)
    (h : ∃ i ∈ l, i.Role = false ∧ i.User = false) :
    (∃ e, setIdentitiesNew d l = Except.error e)
    ∧ (∀ i ∈ (setIdentitiesOld d l).Identities, i.Role = true ∨ i.User = true) := by
  constructor
  · obtain ⟨e, he⟩ := splitIdentitiesNew_error_of_bad l h
    refine ⟨e, ?_⟩
    unfold setIdentitiesNew
    rw [he]
  · intro i hi
    rw [setIdentitiesOld_identities] at hi
    rcases List.mem_append.mp hi with hi' | hi'
    · exact Or.inl (List.mem_filter.mp hi').2
    · exact Or.inr (List.mem_filter.mp hi').2

/-- C2 witness: the amended statement at a concrete unclassifiable record. -/
theorem claim_C2_witness :
    (∃ e, setIdentitiesNew dEx [⟨"zz", "u", []⟩] = Except.error e)
    ∧ (∀ i ∈ (setIdentitiesOld dEx [⟨"zz", "u", []⟩]).Identities,
        i.Role = true ∨ i.User = true) :=
  claim_C2_unclassifiable_amended dEx [⟨"zz", "u", []⟩] (by decide)

/-- C3: on a snapshot satisfying the §3 invariant, `RemoveIdentity` with
`all = false` (both revisions) removes exactly the first record in list
order (roles then users) whose canonical principal string equals the
argument, leaving the records before and after it unchanged and the account
key untouched; when no record matches, both revisions fail with the
not-found error and produce no new state. -/
theorem claim_C3_remove_first (d : ConfigMapData) (arn : String) (hC : Classified d) :
    (∀ pre m post, d.Identities = pre ++ m :: post →
      (∀ x ∈ pre, x.ARN ≠ arn) → m.ARN = arn →
      ∃ d', RemoveIdentityOld d arn false = Except.ok d'
        ∧ RemoveIdentityNew d (ARN.mk arn) false = Except.ok d'
        ∧ d'.Identities = pre ++ post
        ∧ d'.mapAccounts = d.mapAccounts)
    ∧ ((∀ x ∈ d.Identities, x.ARN ≠ arn) →
      (∃ e, RemoveIdentityOld d arn false = Except.error e)
      ∧ (∃ e, RemoveIdentityNew d (ARN.mk arn) false = Except.error e)) := by
  constructor
  · intro pre m post hdec hpre hm
    have hrf : removeFirstIdentity arn d.Identities = some (pre ++ post) := by
      rw [hdec]
      exact removeFirstIdentity_decomp arn pre m post hpre hm
    have hclassifiable : ∀ i ∈ pre ++ post, i.Role = true ∨ i.User = true := by
      intro i hi
      have hmem : i ∈ d.Identities := by
        rw [hdec]
        rcases List.mem_append.mp hi with h' | h'
        · exact List.mem_append.mpr (Or.inl h')
        · exact List.mem_append.mpr (Or.inr (List.mem_cons_of_mem m h'))
      rcases List.mem_append.mp hmem with h' | h'
      · exact Or.inl (hC.1 i h')
      · exact Or.inr (hC.2 i h')
    refine ⟨setIdentitiesOld d (pre ++ post), ?_, ?_, ?_, rfl⟩
    · unfold RemoveIdentityOld
      rw [if_neg (by simp), hrf]
    · unfold RemoveIdentityNew
      rw [if_neg (by simp)]
      simp only [ARN.canonical]
      rw [removeFirstNew_eq arn d.Identities (classified_parses hC), hrf]
      exact setIdentitiesNew_ok d (pre ++ post) hclassifiable
    · rw [setIdentitiesOld_identities]
      obtain ⟨X, Y, hXY, hX, hY⟩ := decomp_split hC.1 hC.2 hdec.symm
      rw [hXY]
      obtain ⟨hfr, hfu⟩ := filter_parts hX hY
      rw [hfr, hfu, ← hXY]
  · intro hno
    constructor
    · refine ⟨"instance identity ARN " ++ arn ++ " not found in auth ConfigMap", ?_⟩
      unfold RemoveIdentityOld
      rw [if_neg (by simp), removeFirstIdentity_none arn d.Identities hno]
    · refine ⟨"instance identity ARN " ++ arn ++ " not found in auth ConfigMap", ?_⟩
      unfold RemoveIdentityNew
      rw [if_neg (by simp)]
      simp only [ARN.canonical]
      rw [removeFirstNew_eq arn d.Identities (classified_parses hC),
        removeFirstIdentity_none arn d.Identities hno]

/-- C3 witness: removing the middle record of `dEx` drops exactly it; a
non-matching principal makes both revisions fail. -/
theorem claim_C3_witness :
    (∃ d', RemoveIdentityOld dEx "arn:aws:iam::1:role:b" false = Except.ok d'
      ∧ RemoveIdentityNew dEx (ARN.mk "arn:aws:iam::1:role:b") false = Except.ok d'
      ∧ d'.Identities = [roleRecA] ++ [userRecC]
      ∧ d'.mapAccounts = dEx.mapAccounts)
    ∧ ((∃ e, RemoveIdentityOld dEx "zz" false = Except.error e)
      ∧ (∃ e, RemoveIdentityNew dEx (ARN.mk "zz") false = Except.error e)) := by
  constructor
  · exact (claim_C3_remove_first dEx "arn:aws:iam::1:role:b" (by decide)).1
      [roleRecA] roleRecB [userRecC] (by decide) (by decide) (by decide)
  · exact (claim_C3_remove_first dEx "zz" (by decide)).2 (by decide)

/-- C4: on a snapshot satisfying the §3 invariant, `RemoveIdentity` with
`all = true` (both revisions) succeeds, removing every record whose
canonical principal string equals the argument and keeping the account key;
when zero records match, the resulting state is unchanged. -/
theorem claim_C4_remove_all (d : ConfigMapData) (arn : String) (hC : Classified d) :
    ∃ d', RemoveIdentityOld d arn true = Except.ok d'
      ∧ RemoveIdentityNew d (ARN.mk arn) true = Except.ok d'
      ∧ d'.Identities = d.Identities.filter (fun i => i.ARN != arn)
      ∧ d'.mapAccounts = d.mapAccounts
      ∧ ((∀ x ∈ d.Identities, x.ARN ≠ arn) → d' = d) := by
  have hclass : ∀ i ∈ d.Identities.filter (fun i => i.ARN != arn),
      i.Role = true ∨ i.User = true := by
    intro i hi
    have hmem := (List.mem_filter.mp hi).1
    rcases List.mem_append.mp hmem with h' | h'
    · exact Or.inl (hC.1 i h')
    · exact Or.inr (hC.2 i h')
  have hsplit : d.Identities.filter (fun i => i.ARN != arn)
      = d.mapRoles.filter (fun i => i.ARN != arn)
        ++ d.mapUsers.filter (fun i => i.ARN != arn) :=
    List.filter_append _ _
  refine ⟨setIdentitiesOld d (d.Identities.filter (fun i => i.ARN != arn)),
    ?_, ?_, ?_, rfl, ?_⟩
  · unfold RemoveIdentityOld
    rw [if_pos rfl]
  · unfold RemoveIdentityNew
    rw [if_pos rfl]
    simp only [ARN.canonical]
    rw [filterOutNew_eq arn d.Identities (classified_parses hC)]
    exact setIdentitiesNew_ok d _ hclass
  · rw [setIdentitiesOld_identities, hsplit]
    obtain ⟨h1, h2⟩ := filter_parts
      (fun r hr => hC.1 r (List.mem_filter.mp hr).1)
      (fun u hu => hC.2 u (List.mem_filter.mp hu).1)
    rw [h1, h2]
  · intro hno
    have hfix : d.Identities.filter (fun i => i.ARN != arn) = d.Identities :=
      List.filter_eq_self.mpr (fun a ha => bne_iff_ne.mpr (hno a ha))
    rw [hfix]
    obtain ⟨h1, h2⟩ := classified_split hC
    unfold setIdentitiesOld
    rw [h1, h2]

/-- C4 witness: removing a non-matching principal from `dEx` with
`all = true` succeeds in both revisions and leaves the state unchanged. -/
theorem claim_C4_witness :
    ∃ d', RemoveIdentityOld dEx "zz" true = Except.ok d'
      ∧ RemoveIdentityNew dEx (ARN.mk "zz") true = Except.ok d'
      ∧ d'.Identities = dEx.Identities.filter (fun i => i.ARN != "zz")
      ∧ d'.mapAccounts = dEx.mapAccounts
      ∧ d' = dEx := by
  obtain ⟨d', h1, h2, h3, h4, h5⟩ := claim_C4_remove_all dEx "zz" (by decide)
  exact ⟨d', h1, h2, h3, h4, h5 (by decide)⟩

/-- C9: on a snapshot satisfying the §3 invariant, adding a valid record
whose principal is not already present and then removing that principal with
`all = false` restores the original snapshot exactly (old revision, as cited
by the claim). -/
theorem claim_C9_add_remove_roundtrip (d : ConfigMapData) (r : MapIdentity)
    (hC : Classified d) (hval : r.Role = true ∨ r.User = true)
    (hfresh : ∀ x ∈ d.Identities, x.ARN ≠ r.ARN) :
    RemoveIdentityOld (AddIdentityOld d r.ARN r.Username r.Groups) r.ARN false
      = Except.ok d := by
  obtain ⟨hRfull, hUfull⟩ := classified_split hC
  obtain ⟨hfr, hfu⟩ := filter_parts hC.1 hC.2
  have hpreR : ∀ x ∈ d.mapRoles, x.ARN ≠ r.ARN :=
    fun x hx => hfresh x (List.mem_append.mpr (Or.inl hx))
  rcases hval with hv | hv
  · have hroles₁ : (AddIdentityOld d r.ARN r.Username r.Groups).mapRoles
        = d.mapRoles ++ [r] := by
      show (d.Identities ++ [r]).filter (fun i => i.Role) = _
      rw [List.filter_append, hRfull]
      simp [List.filter_cons, hv]
    have husers₁ : (AddIdentityOld d r.ARN r.Username r.Groups).mapUsers
        = d.mapUsers := by
      show (d.Identities ++ [r]).filter (fun i => i.User) = _
      rw [List.filter_append, hUfull]
      simp [List.filter_cons, role_user_exclusive hv]
    have hid₁ : (AddIdentityOld d r.ARN r.Username r.Groups).Identities
        = d.mapRoles ++ r :: d.mapUsers := by
      show (AddIdentityOld d r.ARN r.Username r.Groups).mapRoles
          ++ (AddIdentityOld d r.ARN r.Username r.Groups).mapUsers = _
      rw [hroles₁, husers₁, List.append_assoc]
      rfl
    have hrf : removeFirstIdentity r.ARN
        (AddIdentityOld d r.ARN r.Username r.Groups).Identities
        = some (d.mapRoles ++ d.mapUsers) := by
      rw [hid₁]
      exact removeFirstIdentity_decomp r.ARN d.mapRoles r d.mapUsers hpreR rfl
    unfold RemoveIdentityOld
    rw [if_neg (by simp), hrf]
    show Except.ok (setIdentitiesOld _ (d.mapRoles ++ d.mapUsers)) = _
    unfold setIdentitiesOld
    rw [hfr, hfu]
    rfl
  · have hroles₁ : (AddIdentityOld d r.ARN r.Username r.Groups).mapRoles
        = d.mapRoles := by
      show (d.Identities ++ [r]).filter (fun i => i.Role) = _
      rw [List.filter_append, hRfull]
      simp [List.filter_cons, user_role_exclusive hv]
    have husers₁ : (AddIdentityOld d r.ARN r.Username r.Groups).mapUsers
        = d.mapUsers ++ [r] := by
      show (d.Identities ++ [r]).filter (fun i => i.User) = _
      rw [List.filter_append, hUfull]
      simp [List.filter_cons, hv]
    have hid₁ : (AddIdentityOld d r.ARN r.Username r.Groups).Identities
        = (d.mapRoles ++ d.mapUsers) ++ r :: [] := by
      show (AddIdentityOld d r.ARN r.Username r.Groups).mapRoles
          ++ (AddIdentityOld d r.ARN r.Username r.Groups).mapUsers = _
      rw [hroles₁, husers₁, ← List.append_assoc]
    have hrf : removeFirstIdentity r.ARN
        (AddIdentityOld d r.ARN r.Username r.Groups).Identities
        = some (d.mapRoles ++ d.mapUsers) := by
      rw [hid₁]
      rw [removeFirstIdentity_decomp r.ARN (d.mapRoles ++ d.mapUsers) r [] hfresh rfl]
      rw [List.append_nil]
    unfold RemoveIdentityOld
    rw [if_neg (by simp), hrf]
    show Except.ok (setIdentitiesOld _ (d.mapRoles ++ d.mapUsers)) = _
    unfold setIdentitiesOld
    rw [hfr, hfu]
    rfl

/-- C9 witness: the round trip at `dEx` with a fresh role record. -/
theorem claim_C9_witness :
    RemoveIdentityOld (AddIdentityOld dEx "arn:aws:iam::1:role:d" "ud" [])
      "arn:aws:iam::1:role:d" false = Except.ok dEx :=
  claim_C9_add_remove_roundtrip dEx ⟨"arn:aws:iam::1:role:d", "ud", []⟩
    (by decide) (by decide) (by decide)

end Authconfigmap
